import Mathlib

/-!
Verification of the DutchGhostWriter translation manager.

This file gives a shallow embedding of the parts of the repository that the
verified properties are about:

* the Pinia translations store (`src/stores/translations.js`, read here from
  `src/unnamed/part_003`): `createTranslation`, `updateCurrentTranslation`,
  `updateSentence`, `addSentence`, `deleteSentence`, `getContextSentences`,
  `openReview`, `closeReview` and `requestReview`;
* the storage service (`src/unnamed/part_005`): the IndexedDB-backed
  `getTranslation` / `saveTranslation` / `updateTranslation` /
  `deleteTranslation` operations, modelled over an explicit record list with
  an auto-increment counter;
* the Gemini service (`src/unnamed/part_006`): `splitIntoSentences`;
* the Markdown renderer of `src/components/exercise/AIReviewSidebar.vue`:
  `renderMarkdown`.

JavaScript strings are modelled as Lean `String` (lengths are counted in
characters; identical to UTF-16 lengths on the BMP inputs used by the app),
JavaScript arrays as `List`, absent/nullable values as `Option`, promise
rejection as `Except String`.  The single-threaded event loop is modelled by
splitting an `async` function at its `await` points into explicit
synchronous-step functions, so an interleaved state change between request
and response is function composition.
-/

namespace DutchGW

/-- `aiReview` cache entry on a sentence: `{ content, generatedAt }`
(written only by `requestReview` in part_003, lines 384-390). -/
structure AIReview where
  content : String
  generatedAt : String
deriving DecidableEq, Repr

/-- One sentence row of a translation.  `extra` models dynamic properties
written by `updateSentence`'s computed member assignment `[field]: value`
for a `field` name outside the record's typed properties (a JavaScript
object accepts any key); a write that names one of the typed properties
overwrites that property itself and is handled in `setSentenceField`.
The app only ever passes `'english'` or `'dutch'`. -/
structure Sentence where
  id : Nat
  english : String
  dutch : String
  aiReview : Option AIReview := none
  extra : List (String × String) := []
deriving DecidableEq, Repr

/-- A stored translation record (data model of part_003/part_005). -/
structure Translation where
  id : Nat
  title : String
  originalText : String
  sentences : List Sentence
  createdAt : String
  updatedAt : String
deriving DecidableEq, Repr

/-- The IndexedDB `translations` object store: records keyed by `id`, with
the `autoIncrement` key generator modelled by `nextId`. -/
structure DB where
  records : List Translation
  nextId : Nat
deriving DecidableEq, Repr

/-- A partial-fields update as passed to the storage `updateTranslation`
(an object spread `{...existing, ...updates}`): a field is overridden
exactly when it is present in the update object. -/
structure TranslationUpdate where
  title? : Option String := none
  originalText? : Option String := none
  sentences? : Option (List Sentence) := none
deriving DecidableEq, Repr

/-- Update object `{ sentences }` as built by the sentence-level actions. -/
def sentencesUpdate (l : List Sentence) : TranslationUpdate :=
  { sentences? := some l }

/-- JavaScript `String.prototype.trim`: strip whitespace from both ends. -/
def jsTrim (s : String) : String :=
  String.mk (((s.data.dropWhile Char.isWhitespace).reverse.dropWhile
    Char.isWhitespace).reverse)

/-- Storage `getTranslation` (part_005, lines 104-129): `store.get(id)`,
resolving the record or `null`. -/
def getTranslation (db : DB) (id : Nat) : Option Translation :=
  db.records.find? (fun t => t.id == id)

/-- IndexedDB `store.put(data)` on a store keyed by `id`: replaces the
record with that key, or inserts it if absent. -/
def dbPut (db : DB) (t : Translation) : DB :=
  if db.records.any (fun r => r.id == t.id) then
    { db with records := db.records.map (fun r => if r.id == t.id then t else r) }
  else
    { db with records := t :: db.records }

/-- Storage `saveTranslation` on the `put` branch (part_005, lines 69-98):
the record already has an id, `updatedAt` is set to now, `createdAt` is
kept (`translation.createdAt || now` with a non-absent `createdAt`).  The
`JSON.parse(JSON.stringify(...))` deep clone is the identity on the plain
values modelled here. -/
def savePut (db : DB) (t : Translation) (now : String) : Translation × DB :=
  let data := { t with updatedAt := now }
  (data, dbPut db data)

/-- Storage `saveTranslation` on the `add` branch (no `id` on the object):
the auto-increment key generator assigns `nextId`, both timestamps are set
to now. -/
def saveAdd (db : DB) (title originalText : String) (sentences : List Sentence)
    (now : String) : Translation × DB :=
  let t : Translation :=
    { id := db.nextId, title := title, originalText := originalText,
      sentences := sentences, createdAt := now, updatedAt := now }
  (t, { records := t :: db.records, nextId := db.nextId + 1 })

/-- Object spread `{...existing, ...updates}`: fields present in the
update override the existing ones. -/
def applyUpdate (t : Translation) (u : TranslationUpdate) : Translation :=
  { t with
    title := u.title?.getD t.title,
    originalText := u.originalText?.getD t.originalText,
    sentences := u.sentences?.getD t.sentences }

/-- Storage `updateTranslation` (part_005, lines 168-182): throws
`Translation not found: id` when the id is absent, otherwise builds
`{...existing, ...updates, id, updatedAt: now}` and persists it via the
`put` branch of `saveTranslation`. -/
def updateTranslation (db : DB) (id : Nat) (u : TranslationUpdate) (now : String) :
    Except String (Translation × DB) :=
  match getTranslation db id with
  | none => .error ("Translation not found: " ++ toString id)
  | some existing =>
      let updated := { applyUpdate existing u with id := id, updatedAt := now }
      .ok (savePut db updated now)

/-- Storage `deleteTranslation` (part_005, lines 187-208): issues
`store.delete(id)` and resolves `true` on the request's success event.
An IndexedDB `delete` request succeeds whether or not a record with that
key exists (the success event fires with an `undefined` result either
way), and the function performs no existence check of its own, so the
promise resolves `true` unconditionally. -/
def deleteTranslation (db : DB) (id : Nat) : Bool × DB :=
  (true, { db with records := db.records.filter (fun t => t.id != id) })

/-- In-memory state of the Pinia translations store (part_003, lines 19-29),
together with the backing IndexedDB state, so that one value captures
everything a store action can read or write. -/
structure StoreState where
  db : DB
  translations : List Translation
  currentTranslation : Option Translation
  reviewSentenceId : Option Nat
  isReviewLoading : Bool
  reviewError : Option String
deriving DecidableEq, Repr

/-- JavaScript `text.split(/\s+/)` on a list of characters: pieces between
maximal whitespace runs, keeping the empty boundary pieces a leading or
trailing run produces (`"".split` gives `[""]`).  The `Bool` is true while
a separator run is being consumed. -/
def jsSplitWsGo : Bool → List Char → List Char → List String
  | _, [], acc => [String.mk acc.reverse]
  | true, c :: rest, acc =>
      if c.isWhitespace then jsSplitWsGo true rest acc
      else jsSplitWsGo false rest (c :: acc)
  | false, c :: rest, acc =>
      if c.isWhitespace then String.mk acc.reverse :: jsSplitWsGo true rest []
      else jsSplitWsGo false rest (c :: acc)

/-- `firstSentence.split(/\s+/)`. -/
def jsSplitWs (s : String) : List String :=
  jsSplitWsGo false s.data []

/-- Title derivation of `createTranslation` (part_003, lines 107-108):
`words = firstSentence.split(/\s+/).slice(0, 5).join(' ')`, then an
ellipsis exactly when `words.length < firstSentence.length`. -/
def deriveTitle (firstSentence : String) : String :=
  let words := String.intercalate " " ((jsSplitWs firstSentence).take 5)
  if words.length < firstSentence.length then words ++ "..." else words

/-- An element of the `sentences` argument of `createTranslation`: the app's
caller (part_004) passes the plain strings produced by
`splitIntoSentences`, but the function also accepts `{english, dutch}`
objects (it probes `s.english` / `s.dutch`). -/
inductive SentenceInput where
  | str (s : String)
  | obj (english dutch : String)
deriving DecidableEq, Repr

/-- `s.english || s` in the sentence-building map of `createTranslation`: a
plain string has no `english` property, so the string itself is used.
(For an object whose `english` is the empty string, JavaScript would fall
back to the object value itself — an untyped accident no caller reaches;
the `obj` case here carries its `english` field.) -/
def inputEnglish : SentenceInput → String
  | .str s => s
  | .obj e _ => e

/-- `s.dutch || ''`. -/
def inputDutch : SentenceInput → String
  | .str _ => ""
  | .obj _ d => d

/-- `sentences[0]?.english || englishText` (part_003, line 106): a plain
string has no `english` property and an empty `english` is falsy, so both
fall back to `englishText`, as does an empty sentence list. -/
def titleSource (englishText : String) (inputs : List SentenceInput) : String :=
  match inputs.head? with
  | none => englishText
  | some (.str _) => englishText
  | some (.obj e _) => if e = "" then englishText else e

/-- Store action `createTranslation` (part_003, lines 102-133): derives the
title, numbers the sentences `1..n` in input order, persists through the
storage `add` path, sets the saved record as `currentTranslation`, and
unshifts it onto the in-memory list. -/
def createTranslation (st : StoreState) (englishText : String)
    (inputs : List SentenceInput) (now : String) : StoreState :=
  let title := deriveTitle (titleSource englishText inputs)
  let newSentences := inputs.mapIdx (fun index s =>
    { id := index + 1, english := inputEnglish s, dutch := inputDutch s : Sentence })
  let (saved, db') := saveAdd st.db title englishText newSentences now
  { st with
    db := db',
    currentTranslation := some saved,
    translations := saved :: st.translations }

/-- Store action `updateCurrentTranslation` (part_003, lines 135-161):
returns silently when there is no current translation; otherwise persists
via the storage `updateTranslation` (whose rejection propagates), replaces
`currentTranslation` with the merged record, and moves the matching entry
of the in-memory list to the front (splice + unshift). -/
def updateCurrentTranslation (st : StoreState) (u : TranslationUpdate)
    (now : String) : Except String StoreState :=
  match st.currentTranslation with
  | none => .ok st
  | some ct =>
      match updateTranslation st.db ct.id u now with
      | .error e => .error e
      | .ok (updated, db') =>
          let ts := st.translations
          let ts' := if ts.any (fun t => t.id == ct.id) then
              updated :: ts.eraseP (fun t => t.id == ct.id)
            else ts
          .ok { st with
                db := db',
                currentTranslation := some updated,
                translations := ts' }

/-- The `findIndex` / copy / replace-at-index idiom used on sentence lists
(part_003, lines 169-183 and 381-391): replaces the first sentence whose
id matches, returning `none` when no sentence matches (`findIndex` gave
`-1`). -/
def setFirstSentence (sid : Nat) (f : Sentence → Sentence) :
    List Sentence → Option (List Sentence)
  | [] => none
  | s :: rest =>
      if s.id == sid then some (f s :: rest)
      else (setFirstSentence sid f rest).map (fun l => s :: l)

/-- The computed member assignment `{...sentence, [field]: value}` of
`updateSentence`: the spread overwrites whichever property `field` names.
`'english'` and `'dutch'` overwrite the typed string fields.  `'aiReview'`
overwrites the cached review object with the passed string — a value that
carries no `content`, which every reader of this slot
(`aiReview?.content`) treats as no cache; the model records the destroyed
cache as `none` (the inert raw string is not retained).  `'id'` would
overwrite the numeric id with a string, which afterwards compares
`===`-unequal to every numeric id the store looks up; a `Nat`-typed id
cannot hold such a value, so that branch lies outside this embedding's
faithful domain (no claim exercises it) and the model leaves the row
unchanged there.  Any other name lands in the object's dynamic
properties. -/
def setSentenceField (s : Sentence) (field value : String) : Sentence :=
  if field = "english" then { s with english := value }
  else if field = "dutch" then { s with dutch := value }
  else if field = "aiReview" then { s with aiReview := none }
  else if field = "id" then s
  else { s with extra := (field, value) :: s.extra.eraseP (fun kv => kv.1 == field) }

/-- One sentence's update in `updateSentence` (part_003, lines 172-181):
write the named field, then delete `aiReview` exactly when the field is
`'english'` or `'dutch'`. -/
def applySentenceUpdate (s : Sentence) (field value : String) : Sentence :=
  let u := setSentenceField s field value
  if field = "english" ∨ field = "dutch" then { u with aiReview := none } else u

/-- Store action `updateSentence` (part_003, lines 163-186): no-op without
a current translation; locates the sentence by id (`findIndex`), and only
when found writes the updated copy back through
`updateCurrentTranslation`. -/
def updateSentence (st : StoreState) (sentenceId : Nat) (field value : String)
    (now : String) : Except String StoreState :=
  match st.currentTranslation with
  | none => .ok st
  | some ct =>
      match setFirstSentence sentenceId (fun s => applySentenceUpdate s field value)
          ct.sentences with
      | none => .ok st
      | some newSentences => updateCurrentTranslation st (sentencesUpdate newSentences) now

/-- `Math.max(...sentences.map(s => s.id), 0)`. -/
def maxSentenceId (l : List Sentence) : Nat :=
  (l.map Sentence.id).foldr max 0

/-- Store action `addSentence` (part_003, lines 188-210): new id is
`max existing id + 1`; the blank sentence is spliced in right after
`afterId` when that id is found, appended otherwise (including
`afterId = null`). -/
def addSentence (st : StoreState) (afterId : Option Nat) (now : String) :
    Except String StoreState :=
  match st.currentTranslation with
  | none => .ok st
  | some ct =>
      let sentences := ct.sentences
      let newId := maxSentenceId sentences + 1
      let newSentence : Sentence := { id := newId, english := "", dutch := "" }
      let sentences' :=
        match afterId with
        | some aid =>
            match sentences.findIdx? (fun s => s.id == aid) with
            | some index => sentences.insertIdx (index + 1) newSentence
            | none => sentences ++ [newSentence]
        | none => sentences ++ [newSentence]
      updateCurrentTranslation st (sentencesUpdate sentences') now

/-- Store action `deleteSentence` (part_003, lines 212-224): filters the id
out of the sentence list, persists, and returns the removed sentence (or
`none`) for the caller's UI feedback. -/
def deleteSentence (st : StoreState) (sentenceId : Nat) (now : String) :
    Except String (Option Sentence × StoreState) :=
  match st.currentTranslation with
  | none => .ok (none, st)
  | some ct =>
      let sentence := ct.sentences.find? (fun s => s.id == sentenceId)
      let sentences := ct.sentences.filter (fun s => s.id != sentenceId)
      (updateCurrentTranslation st (sentencesUpdate sentences) now).map
        (fun st' => (sentence, st'))

/-- `getContextSentences` (part_003, lines 284-303): up to three preceding
and three following sentences' `english` text, blanks (whitespace-only)
skipped. -/
def getContextSentences (st : StoreState) (sentenceId : Nat) :
    List String × List String :=
  match st.currentTranslation with
  | none => ([], [])
  | some ct =>
      match ct.sentences.findIdx? (fun s => s.id == sentenceId) with
      | none => ([], [])
      | some index =>
          let before := (((ct.sentences.take index).drop (index - 3)).map
            Sentence.english).filter (fun text => jsTrim text != "")
          let after := (((ct.sentences.drop (index + 1)).take 3).map
            Sentence.english).filter (fun text => jsTrim text != "")
          (before, after)

/-- JavaScript truthiness of `sentence.aiReview?.content`. -/
def hasContent : Option AIReview → Bool
  | none => false
  | some r => r.content != ""

/-- `hasReviewCache` (part_003, lines 308-312). -/
def hasReviewCache (st : StoreState) (sentenceId : Nat) : Bool :=
  match st.currentTranslation with
  | none => false
  | some ct =>
      match ct.sentences.find? (fun s => s.id == sentenceId) with
      | none => false
      | some s => hasContent s.aiReview

/-- `openReview` (part_003, lines 317-321). -/
def openReview (st : StoreState) (sentenceId : Nat) : StoreState :=
  { st with reviewSentenceId := some sentenceId, reviewError := none }

/-- `closeReview` (part_003, lines 326-331). -/
def closeReview (st : StoreState) : StoreState :=
  { st with reviewSentenceId := none, reviewError := none, isReviewLoading := false }

/-- Outcome of the synchronous prefix of `requestReview` (everything the
function runs before its `await reviewTranslation(...)`): either it
returned without contacting the Text Generation Client, or it reached the
network call, with the state as updated so far and the captured request
payload `(english, dutch, contextBefore, contextAfter)`. -/
inductive ReviewStep where
  | noCall (st' : StoreState)
  | call (st' : StoreState) (english dutch : String) (before after : List String)
deriving DecidableEq, Repr

/-- The credential-missing message of part_003, line 356. -/
def apiKeyMissingMsg : String :=
  "API key not configured. Please set up your API key in Settings."

/-- Synchronous prefix of `requestReview` (part_003, lines 336-373): guard
on an open review target and a current translation (review ids are never
the falsy `0`; they start at 1), locate the sentence, short-circuit on a
cached review, error out synchronously when `getApiKey()` is absent or
empty (both falsy), otherwise set the loading flag, clear the error,
gather context and issue the network call with the captured sentence
texts. -/
def requestReviewStart (st : StoreState) (apiKey : Option String) : ReviewStep :=
  match st.reviewSentenceId, st.currentTranslation with
  | some rid, some ct =>
      match ct.sentences.find? (fun s => s.id == rid) with
      | none => .noCall { st with reviewError := some "Sentence not found" }
      | some sentence =>
          if hasContent sentence.aiReview then .noCall st
          else if apiKey.getD "" = "" then
            .noCall { st with reviewError := some apiKeyMissingMsg }
          else
            .call { st with isReviewLoading := true, reviewError := none }
              sentence.english sentence.dutch
              (getContextSentences st rid).1 (getContextSentences st rid).2
  | _, _ => .noCall st

/-- The tagged result of `reviewTranslation` (part_006, lines 177-242):
`{success: true, content}` or `{success: false, error}`. -/
inductive GeminiResult where
  | success (content : String)
  | failure (error : String)
deriving DecidableEq, Repr

/-- `error.message || 'Failed to generate review'` in the catch block of
`requestReview`. -/
def reviewErrorMsg (msg : String) : String :=
  if msg = "" then "Failed to generate review" else msg

/-- Continuation of `requestReview` after its `await` resolves (part_003,
lines 375-400), applied to whatever store state exists at completion time.
A failed result is re-thrown and caught, setting `reviewError`.  On
success the target index is computed from the **live** `reviewSentenceId`
(line 381 re-reads the ref; the id captured at request time is not used),
so the review lands on whichever sentence is the open review target when
the response arrives, and nothing is written when the review was closed
(`findIndex` on `null` gives `-1`) or the id matches no sentence.  The
`finally` clause always drops the loading flag.  (If `currentTranslation`
became `null` in flight, line 380 throws a TypeError that the catch block
turns into an error message — modelled by the generic fallback.) -/
def requestReviewFinish (st : StoreState) (result : GeminiResult) (now : String) :
    StoreState :=
  match result with
  | .failure msg =>
      { st with reviewError := some (reviewErrorMsg msg), isReviewLoading := false }
  | .success content =>
      match st.currentTranslation with
      | none =>
          { st with reviewError := some (reviewErrorMsg ""), isReviewLoading := false }
      | some ct =>
          match st.reviewSentenceId with
          | none => { st with isReviewLoading := false }
          | some rid =>
              match setFirstSentence rid
                  (fun s => { s with aiReview := some ⟨content, now⟩ })
                  ct.sentences with
              | none => { st with isReviewLoading := false }
              | some newSentences =>
                  match updateCurrentTranslation st (sentencesUpdate newSentences) now with
                  | .ok st' => { st' with isReviewLoading := false }
                  | .error e =>
                      { st with reviewError := some (reviewErrorMsg e),
                                isReviewLoading := false }

/-- `splitIntoSentences`'s split `/(?<=[.!?])\s+/` (part_006, line 156) on a
character list: a maximal whitespace run whose position is immediately
preceded by `.`, `!` or `?` separates pieces.  `prev` is the character
before the scan position (a non-matching placeholder at the start); the
`Bool` is true while a separator run is being consumed. -/
def splitSentencesGo : Char → Bool → List Char → List Char → List String
  | _, _, [], acc => [String.mk acc.reverse]
  | _, true, c :: rest, acc =>
      if c.isWhitespace then splitSentencesGo c true rest acc
      else splitSentencesGo c false rest (c :: acc)
  | prev, false, c :: rest, acc =>
      if c.isWhitespace && (prev == '.' || prev == '!' || prev == '?') then
        String.mk acc.reverse :: splitSentencesGo c true rest []
      else splitSentencesGo c false rest (c :: acc)

/-- `splitIntoSentences` (part_006, lines 150-162): split after
sentence-final punctuation followed by whitespace, trim each piece, keep
the non-empty ones. -/
def splitIntoSentences (text : String) : List String :=
  ((splitSentencesGo ' ' false text.data []).map jsTrim).filter
    (fun s => s.length > 0)

/-! ### The Markdown-subset renderer of `AIReviewSidebar.vue` (lines 108-145)

Each `.replace` pass of `renderMarkdown` is modelled as one function over the
character list, applied in the source's order.  Scans that resume after a
replaced match are written with a fuel argument (initialised to more than
the list length, which bounds the number of scan steps) so that every
definition is structurally recursive and kernel-evaluable. -/

/-- One global single-character replacement pass, `text.replace(/c/g, r)`. -/
def replaceChar : List Char → Char → List Char → List Char
  | [], _, _ => []
  | x :: xs, c, r => (if x = c then r else [x]) ++ replaceChar xs c r

/-- The escape stage (`AIReviewSidebar.vue`, lines 112-115): `&` then `<`
then `>` are globally replaced by their entities, before any tag
substitution. -/
def escapeHtml (cs : List Char) : List Char :=
  replaceChar (replaceChar (replaceChar cs '&' "&amp;".data) '<' "&lt;".data)
    '>' "&gt;".data

/-- Split at newlines (the line structure seen by the `/^...$/gm` passes;
the model treats `\n` as the line terminator). -/
def splitLines : List Char → List (List Char)
  | [] => [[]]
  | c :: rest =>
      if c = '\n' then [] :: splitLines rest
      else
        match splitLines rest with
        | [] => [[c]]
        | l :: ls => (c :: l) :: ls

/-- Rejoin what `splitLines` produced. -/
def joinLines (ls : List (List Char)) : List Char :=
  (ls.intersperse ['\n']).flatten

/-- One `/^marker(.+)$/gm` line pass (headers, blockquotes, bullets): a line
that starts with the marker and has at least one further character is
wrapped in the given open/close tags. -/
def linePass (marker tagOpen tagClose : List Char) (line : List Char) : List Char :=
  if marker.isPrefixOf line ∧ marker.length < line.length then
    tagOpen ++ line.drop marker.length ++ tagClose
  else line

/-- Apply a line pass to every line of the text. -/
def mapLines (f : List Char → List Char) (cs : List Char) : List Char :=
  joinLines ((splitLines cs).map f)

/-- Lazy body of `/\*\*(.+?)\*\*/`: the shortest non-empty run of
non-newline characters followed by `**`; returns the body and what follows
the closing `**`. -/
def findDoubleStarClose : List Char → Option (List Char × List Char)
  | [] => none
  | c :: rest =>
      if c = '\n' then none
      else
        match rest with
        | '*' :: '*' :: rem => some ([c], rem)
        | _ => (findDoubleStarClose rest).map (fun p => (c :: p.1, p.2))

/-- Scan of `.replace(/\*\*(.+?)\*\*\/g, '<strong>$1</strong>')`: on an
unclosed `**` the engine moves one character forward and retries. -/
def goBold : Nat → List Char → List Char
  | 0, cs => cs
  | _ + 1, [] => []
  | fuel + 1, '*' :: '*' :: rest =>
      match findDoubleStarClose rest with
      | some (body, rem) =>
          "<strong>".data ++ body ++ "</strong>".data ++ goBold fuel rem
      | none => '*' :: goBold fuel ('*' :: rest)
  | fuel + 1, c :: rest => c :: goBold fuel rest

/-- Lazy body of `/\*(.+?)\*/`. -/
def findStarClose : List Char → Option (List Char × List Char)
  | [] => none
  | c :: rest =>
      if c = '\n' then none
      else
        match rest with
        | '*' :: rem => some ([c], rem)
        | _ => (findStarClose rest).map (fun p => (c :: p.1, p.2))

/-- Scan of `.replace(/\*(.+?)\*\/g, '<em>$1</em>')`. -/
def goEm : Nat → List Char → List Char
  | 0, cs => cs
  | _ + 1, [] => []
  | fuel + 1, '*' :: rest =>
      match findStarClose rest with
      | some (body, rem) => "<em>".data ++ body ++ "</em>".data ++ goEm fuel rem
      | none => '*' :: goEm fuel rest
  | fuel + 1, c :: rest => c :: goEm fuel rest

/-- The backtick character (its literal is avoided in this file). -/
def backtick : Char := Char.ofNat 96

/-- Body of an inline-code span: the characters up to the next backtick,
which must be non-empty. -/
def findTickClose (cs : List Char) : Option (List Char × List Char) :=
  let body := cs.takeWhile (fun c => c ≠ backtick)
  match cs.drop body.length with
  | _ :: rem => if body = [] then none else some (body, rem)
  | [] => none

/-- Scan for inline code, `<code>$1</code>` with a non-empty
non-backtick body. -/
def goCode : Nat → List Char → List Char
  | 0, cs => cs
  | _ + 1, [] => []
  | fuel + 1, c :: rest =>
      if c = backtick then
        match findTickClose rest with
        | some (body, rem) => "<code>".data ++ body ++ "</code>".data ++ goCode fuel rem
        | none => c :: goCode fuel rest
      else c :: goCode fuel rest

/-- Last occurrence of `</li>` in a list, as (characters before it,
characters after it); prefers later occurrences. -/
def lastCloseLi : List Char → Option (List Char × List Char)
  | [] => none
  | c :: rest =>
      match lastCloseLi rest with
      | some (pre, post) => some (c :: pre, post)
      | none =>
          if "</li>".data.isPrefixOf (c :: rest) then some ([], (c :: rest).drop 5)
          else none

/-- One iteration of the group `(<li>.+<\/li>\n?)`: `<li>`, then a greedy
non-newline body ending at the line's last `</li>` (at least one body
character), then the closing tag and, when the item ends the line, its
newline.  Returns the matched characters and the rest. -/
def matchLiItem (cs : List Char) : Option (List Char × List Char) :=
  if "<li>".data.isPrefixOf cs then
    let afterOpen := cs.drop 4
    let line := afterOpen.takeWhile (fun c => c ≠ '\n')
    let restAll := afterOpen.drop line.length
    match lastCloseLi line with
    | none => none
    | some (pre, leftover) =>
        if pre = [] then none
        else if leftover = [] then
          match restAll with
          | '\n' :: rem =>
              some ("<li>".data ++ pre ++ "</li>".data ++ ['\n'], rem)
          | _ => some ("<li>".data ++ pre ++ "</li>".data, restAll)
        else some ("<li>".data ++ pre ++ "</li>".data, leftover ++ restAll)
  else none

/-- The `+` repetition of the item group: as many consecutive items as
possible (at least one). -/
def matchLiRun : Nat → List Char → Option (List Char × List Char)
  | 0, _ => none
  | fuel + 1, cs =>
      match matchLiItem cs with
      | none => none
      | some (item, rem) =>
          match matchLiRun fuel rem with
          | some (run, rem') => some (item ++ run, rem')
          | none => some (item, rem)

/-- Scan of `.replace(/(<li>.+<\/li>\n?)+/g, '<ul>$&</ul>')`. -/
def goLiWrap : Nat → List Char → List Char
  | 0, cs => cs
  | _ + 1, [] => []
  | fuel + 1, c :: rest =>
      match matchLiRun (rest.length + 1) (c :: rest) with
      | some (run, rem) => "<ul>".data ++ run ++ "</ul>".data ++ goLiWrap fuel rem
      | none => c :: goLiWrap fuel rest

/-- `.replace(/\n\n/g, '</p><p>')`: non-overlapping, left to right. -/
def paraPass : List Char → List Char
  | [] => []
  | '\n' :: '\n' :: rest => "</p><p>".data ++ paraPass rest
  | c :: rest => c :: paraPass rest

/-- `.replace(/\n/g, '<br>')`. -/
def brPass : List Char → List Char
  | [] => []
  | c :: rest => (if c = '\n' then "<br>".data else [c]) ++ brPass rest

/-- The eight fixed strings matched by `/<\/(h[1-6]|blockquote|ul)><br>/g`,
with their replacements. -/
def brFixPatterns : List (List Char × List Char) :=
  [("</h1><br>".data, "</h1>".data), ("</h2><br>".data, "</h2>".data),
   ("</h3><br>".data, "</h3>".data), ("</h4><br>".data, "</h4>".data),
   ("</h5><br>".data, "</h5>".data), ("</h6><br>".data, "</h6>".data),
   ("</blockquote><br>".data, "</blockquote>".data),
   ("</ul><br>".data, "</ul>".data)]

/-- The pattern of `brFixPatterns` matching at the head of the list, if
any (the alternatives never share a prefix relation, so at most one
matches). -/
def brFixHere (cs : List Char) : Option (List Char × Nat) :=
  brFixPatterns.findSome? (fun p =>
    if p.1.isPrefixOf cs then some (p.2, p.1.length) else none)

/-- Scan removing the `<br>` after block-element closers. -/
def goBrFix : Nat → List Char → List Char
  | 0, cs => cs
  | _ + 1, [] => []
  | fuel + 1, c :: rest =>
      match brFixHere (c :: rest) with
      | some (repl, n) => repl ++ goBrFix fuel ((c :: rest).drop n)
      | none => c :: goBrFix fuel rest

/-- The tag-substitution pipeline of `renderMarkdown` after the escape
stage, in source order: h3, h2, h1, blockquote, bold, italics, inline
code, bullets, list wrapping, paragraph breaks, line breaks, and the
block-closer `<br>` cleanup. -/
def markdownPipeline (cs : List Char) : List Char :=
  let s1 := mapLines (linePass "### ".data "<h3>".data "</h3>".data) cs
  let s2 := mapLines (linePass "## ".data "<h2>".data "</h2>".data) s1
  let s3 := mapLines (linePass "# ".data "<h1>".data "</h1>".data) s2
  let s4 := mapLines (linePass "&gt; ".data "<blockquote>".data "</blockquote>".data) s3
  let s5 := goBold (s4.length + 1) s4
  let s6 := goEm (s5.length + 1) s5
  let s7 := goCode (s6.length + 1) s6
  let s8 := mapLines (linePass "- ".data "<li>".data "</li>".data) s7
  let s9 := goLiWrap (s8.length + 1) s8
  let s10 := paraPass s9
  let s11 := brPass s10
  goBrFix (s11.length + 1) s11

/-- Final wrapping step of `renderMarkdown` (lines 140-142): wrap in a
paragraph unless the result starts with a block element. -/
def wrapParagraph (cs : List Char) : List Char :=
  if "<h".data.isPrefixOf cs ∨ "<ul".data.isPrefixOf cs ∨
      "<blockquote".data.isPrefixOf cs then cs
  else "<p>".data ++ cs ++ "</p>".data

/-- `renderMarkdown` (`AIReviewSidebar.vue`, lines 108-145): empty (falsy)
input maps to the empty string; otherwise HTML-escape, run the tag
pipeline, and wrap. -/
def renderMarkdown (text : String) : String :=
  if text = "" then ""
  else String.mk (wrapParagraph (markdownPipeline (escapeHtml text.data)))

/-- The record `{...existing, ...updates, id, updatedAt: now}` that the
storage `updateTranslation` builds and persists. -/
def mergedRecord (ex : Translation) (u : TranslationUpdate) (id : Nat)
    (now : String) : Translation :=
  { applyUpdate ex u with id := id, updatedAt := now }

/-! ### Concrete example values

A two-sentence translation, stored under id 7, used to instantiate the
theorems below on concrete inputs. -/

/-- A cached review value. -/
def exReview : AIReview := { content := "Goed zo!", generatedAt := "t0" }

/-- Sentence 1 of the example translation. -/
def exS1 : Sentence := { id := 1, english := "I walk.", dutch := "Ik loop." }

/-- Sentence 2 of the example translation. -/
def exS2 : Sentence := { id := 2, english := "I run.", dutch := "Ik ren." }

/-- Sentence 1 with a cached AI review. -/
def exS1R : Sentence := { exS1 with aiReview := some exReview }

/-- The example translation (no cached reviews). -/
def exCT : Translation :=
  { id := 7, title := "T", originalText := "I walk. I run.",
    sentences := [exS1, exS2], createdAt := "t0", updatedAt := "t0" }

/-- Database holding exactly the example translation. -/
def exDB : DB := { records := [exCT], nextId := 8 }

/-- Store state with the example translation open and sentence 1 as the
open review target. -/
def exState : StoreState :=
  { db := exDB, translations := [exCT], currentTranslation := some exCT,
    reviewSentenceId := some 1, isReviewLoading := false, reviewError := none }

/-- The example translation with a cached review on sentence 1. -/
def exCT2 : Translation := { exCT with sentences := [exS1R, exS2] }

/-- Database holding the cached-review variant. -/
def exDB2 : DB := { records := [exCT2], nextId := 8 }

/-- Store state with the cached-review translation open and no open
review. -/
def exState2 : StoreState :=
  { db := exDB2, translations := [exCT2], currentTranslation := some exCT2,
    reviewSentenceId := none, isReviewLoading := false, reviewError := none }

/-- Sentence 1 with a cached review after `updateSentence(1, 'note', 'hi')`:
the dynamic property is written, the review survives. -/
def exS1R' : Sentence := { exS1R with extra := [("note", "hi")] }

/-- `exCT2` after that update. -/
def exCT2' : Translation :=
  { exCT2 with sentences := [exS1R', exS2], updatedAt := "t1" }

/-- The database after that update. -/
def exDB2' : DB := { records := [exCT2'], nextId := 8 }

/-- The full store state after that update. -/
def exState2' : StoreState :=
  { db := exDB2', translations := [exCT2'], currentTranslation := some exCT2',
    reviewSentenceId := none, isReviewLoading := false, reviewError := none }

/-- `exState` once `requestReview` has issued its network call. -/
def exCallState : StoreState :=
  { exState with isReviewLoading := true, reviewError := none }

/-- A store state with nothing loaded and an empty database. -/
def exEmptyState : StoreState :=
  { db := { records := [], nextId := 1 }, translations := [],
    currentTranslation := none, reviewSentenceId := none,
    isReviewLoading := false, reviewError := none }

/-- A title-only update object. -/
def exU : TranslationUpdate := { title? := some "Nieuw" }

/-- The merged record a title-only update of the example translation
produces. -/
def exMerged : Translation := { exCT with title := "Nieuw", updatedAt := "t1" }

/-- The example database after that update. -/
def exDBMerged : DB := { records := [exMerged], nextId := 8 }

/-! ### Supporting lemmas -/

theorem setFirstSentence_eq_none (sid : Nat) (f : Sentence → Sentence) :
    ∀ l : List Sentence, (∀ s ∈ l, s.id ≠ sid) → setFirstSentence sid f l = none := by
  intro l
  induction l with
  | nil => intro _; rfl
  | cons a rest ih =>
      intro h
      have ha : (a.id == sid) = false := by
        simp only [beq_eq_false_iff_ne]
        exact h a (List.mem_cons_self a rest)
      simp only [setFirstSentence, ha, Bool.false_eq_true, if_false,
        ih (fun s hs => h s (List.mem_cons_of_mem a hs)), Option.map_none']

theorem setFirstSentence_isSome (sid : Nat) (f : Sentence → Sentence) :
    ∀ l : List Sentence, (∃ s ∈ l, s.id = sid) →
      ∃ l', setFirstSentence sid f l = some l' := by
  intro l
  induction l with
  | nil => rintro ⟨s, hs, _⟩; cases hs
  | cons a rest ih =>
      rintro ⟨s, hs, hid⟩
      by_cases ha : a.id = sid
      · exact ⟨f a :: rest, by simp [setFirstSentence, ha]⟩
      · rcases List.mem_cons.mp hs with rfl | hs'
        · exact absurd hid ha
        · rcases ih ⟨s, hs', hid⟩ with ⟨l₂, hl₂⟩
          exact ⟨a :: l₂, by simp [setFirstSentence, ha, hl₂]⟩

theorem setFirstSentence_some_struct (sid : Nat) (f : Sentence → Sentence) :
    ∀ (l l' : List Sentence), setFirstSentence sid f l = some l' →
      ∃ pre s post, l = pre ++ s :: post ∧ s.id = sid ∧
        (∀ x ∈ pre, x.id ≠ sid) ∧ l' = pre ++ f s :: post := by
  intro l
  induction l with
  | nil => intro l' h; cases h
  | cons a rest ih =>
      intro l' h
      by_cases ha : a.id = sid
      · refine ⟨[], a, rest, by simp, ha, by simp, ?_⟩
        simpa [setFirstSentence, ha] using h.symm
      · have ha' : (a.id == sid) = false := by simpa [beq_eq_false_iff_ne] using ha
        simp only [setFirstSentence, ha', Bool.false_eq_true, if_false] at h
        rcases Option.map_eq_some'.mp h with ⟨l₂, hl₂, rfl⟩
        rcases ih l₂ hl₂ with ⟨pre, s, post, hdec, hid, hpre, hres⟩
        refine ⟨a :: pre, s, post, by simp [hdec], hid, ?_, by simp [hres]⟩
        intro x hx
        rcases List.mem_cons.mp hx with rfl | hx'
        · exact ha
        · exact hpre x hx'

theorem setFirstSentence_mem_preserved (sid : Nat) (f : Sentence → Sentence)
    (l l' : List Sentence) (h : setFirstSentence sid f l = some l') :
    ∀ s ∈ l, s.id ≠ sid → s ∈ l' := by
  rcases setFirstSentence_some_struct sid f l l' h with
    ⟨pre, t, post, rfl, hid, _, rfl⟩
  intro s hs hne
  rcases List.mem_append.mp hs with hs' | hs'
  · exact List.mem_append.mpr (Or.inl hs')
  · rcases List.mem_cons.mp hs' with rfl | hs''
    · exact absurd hid hne
    · exact List.mem_append.mpr (Or.inr (List.mem_cons_of_mem _ hs''))

theorem setFirstSentence_mem_target (sid : Nat) (f : Sentence → Sentence)
    (l l' : List Sentence) (h : setFirstSentence sid f l = some l')
    (hnodup : (l.map Sentence.id).Nodup) :
    ∀ s' ∈ l', s'.id = sid → ∃ s ∈ l, s.id = sid ∧ s' = f s := by
  rcases setFirstSentence_some_struct sid f l l' h with
    ⟨pre, t, post, rfl, hid, hpre, rfl⟩
  intro s' hs' hid'
  rcases List.mem_append.mp hs' with hm | hm
  · exact absurd hid' (hpre s' hm)
  · rcases List.mem_cons.mp hm with rfl | hm'
    · exact ⟨t, List.mem_append.mpr (Or.inr (List.mem_cons_self t post)), hid, rfl⟩
    · exfalso
      have h1 : t.id ∈ (pre ++ t :: post).map Sentence.id := by
        simp [List.mem_append]
      have h2 : (List.map Sentence.id (pre ++ t :: post)).Nodup := hnodup
      rw [List.map_append, List.map_cons] at h2
      have h3 := (List.Nodup.of_append_right h2)
      have h4 : t.id ∉ post.map Sentence.id := (List.nodup_cons.mp h3).1
      exact h4 (by
        have : s'.id ∈ post.map Sentence.id := List.mem_map_of_mem Sentence.id hm'
        rwa [hid', ← hid] at this)

theorem sentenceId_le_max (l : List Sentence) (s : Sentence) (h : s ∈ l) :
    s.id ≤ maxSentenceId l := by
  induction l with
  | nil => cases h
  | cons a rest ih =>
      rcases List.mem_cons.mp h with rfl | h'
      · exact le_max_left _ _
      · exact le_trans (ih h') (le_max_right _ _)

theorem maxSentenceId_fresh (l : List Sentence) :
    ∀ s ∈ l, s.id ≠ maxSentenceId l + 1 := by
  intro s hs h
  have := sentenceId_le_max l s hs
  omega

theorem filter_ne_insertIdx (nid : Nat) (x : Sentence) (hx : x.id = nid) :
    ∀ (l : List Sentence) (k : Nat), (∀ s ∈ l, s.id ≠ nid) →
      (l.insertIdx k x).filter (fun s => s.id != nid) = l := by
  intro l
  induction l with
  | nil =>
      intro k _
      cases k with
      | zero => simp [List.insertIdx_zero, List.filter, hx]
      | succ k => simp [List.insertIdx]
  | cons a rest ih =>
      intro k h
      have ha : (a.id != nid) = true := by
        simpa [bne_iff_ne] using h a (List.mem_cons_self a rest)
      cases k with
      | zero =>
          rw [List.insertIdx_zero, List.filter_cons]
          simp only [hx, bne_self_eq_false, Bool.false_eq_true, if_false]
          rw [List.filter_cons, ha, if_pos rfl]
          congr 1
          exact List.filter_eq_self.mpr (fun s hs => by
            simpa [bne_iff_ne] using h s (List.mem_cons_of_mem a hs))
      | succ k =>
          rw [List.insertIdx_succ_cons, List.filter_cons, ha, if_pos rfl]
          congr 1
          exact ih k (fun s hs => h s (List.mem_cons_of_mem a hs))

theorem filter_ne_append_singleton (nid : Nat) (x : Sentence) (hx : x.id = nid)
    (l : List Sentence) (h : ∀ s ∈ l, s.id ≠ nid) :
    (l ++ [x]).filter (fun s => s.id != nid) = l := by
  rw [List.filter_append]
  have h1 : l.filter (fun s => s.id != nid) = l :=
    List.filter_eq_self.mpr (fun s hs => by simpa [bne_iff_ne] using h s hs)
  simp [h1, List.filter, hx]

theorem find_put_self (t : Translation) :
    ∀ l : List Translation, l.any (fun r => r.id == t.id) = true →
      (l.map (fun r => if r.id == t.id then t else r)).find?
        (fun r => r.id == t.id) = some t := by
  intro l
  induction l with
  | nil => intro h; cases h
  | cons a rest ih =>
      intro h
      by_cases ha : a.id = t.id
      · simp [List.find?, ha]
      · have ha' : (a.id == t.id) = false := by simpa [beq_eq_false_iff_ne] using ha
        have h' : rest.any (fun r => r.id == t.id) = true := by
          simpa [List.any_cons, ha'] using h
        simpa [List.find?, ha'] using ih h'

theorem getTranslation_dbPut_self (db : DB) (t : Translation) :
    getTranslation (dbPut db t) t.id = some t := by
  unfold getTranslation dbPut
  by_cases h : db.records.any (fun r => r.id == t.id)
  · simpa [h] using find_put_self t db.records h
  · simp [h, List.find?]

theorem updateCurrentTranslation_ok (st : StoreState) (ct ex : Translation)
    (u : TranslationUpdate) (now : String)
    (h : st.currentTranslation = some ct)
    (hdb : getTranslation st.db ct.id = some ex) :
    ∃ st', updateCurrentTranslation st u now = .ok st' ∧
      st'.currentTranslation = some (mergedRecord ex u ct.id now) ∧
      st'.db = dbPut st.db (mergedRecord ex u ct.id now) := by
  have hstep : updateCurrentTranslation st u now =
      .ok { st with
            db := dbPut st.db (mergedRecord ex u ct.id now),
            currentTranslation := some (mergedRecord ex u ct.id now),
            translations :=
              if st.translations.any (fun t => t.id == ct.id) then
                mergedRecord ex u ct.id now ::
                  st.translations.eraseP (fun t => t.id == ct.id)
              else st.translations } := by
    simp only [updateCurrentTranslation, h, updateTranslation, hdb, savePut,
      mergedRecord]
  exact ⟨_, hstep, rfl, rfl⟩

/-! ### Claims -/

/-- Claim C10: for every sentenceId not present in
`currentTranslation.sentences` (and likewise whenever `currentTranslation`
is none), `updateSentence(sentenceId, field, value)` performs no Document
Store write and leaves `currentTranslation`, `allTranslations`, and all
AI-review state unchanged.  The conclusion returns the entire store state
(including the database) unchanged. -/
theorem updateSentence_absent_noop (st : StoreState) (sentenceId : Nat)
    (field value now : String)
    (h : st.currentTranslation = none ∨
      ∃ ct, st.currentTranslation = some ct ∧ ∀ s ∈ ct.sentences, s.id ≠ sentenceId) :
    updateSentence st sentenceId field value now = .ok st := by
  rcases h with h | ⟨ct, h, hall⟩
  · simp [updateSentence, h]
  · simp [updateSentence, h, setFirstSentence_eq_none sentenceId _ ct.sentences hall]

/-- Witness for C10 at a concrete input: id 99 is absent from the example
translation, and `updateSentence` returns the state untouched. -/
theorem updateSentence_absent_noop_witness :
    updateSentence exState 99 "english" "x" "t1" = .ok exState :=
  updateSentence_absent_noop exState 99 "english" "x" "t1"
    (Or.inr ⟨exCT, rfl, by decide⟩)

/-- Claim C6: whenever no API key is configured and the open review
sentence has no cached aiReview content, `requestReview()` sets
`reviewError` to a credential-missing message synchronously (the guard
runs in the synchronous prefix of the function, before any asynchronous
step, modelled by `requestReviewStart`) and never invokes the Text
Generation Client's review operation (outcome `noCall`). -/
theorem requestReview_no_key_no_call (st : StoreState) (rid : Nat)
    (ct : Translation) (s : Sentence)
    (h1 : st.reviewSentenceId = some rid)
    (h2 : st.currentTranslation = some ct)
    (h3 : ct.sentences.find? (fun x => x.id == rid) = some s)
    (h4 : hasContent s.aiReview = false) :
    requestReviewStart st none =
      .noCall { st with reviewError := some apiKeyMissingMsg } := by
  simp [requestReviewStart, h1, h2, h3, h4]

/-- Witness for C6 at a concrete input: sentence 1 of the example state has
no cached review, no key is configured, and the synchronous prefix sets
the credential-missing error without reaching the network call. -/
theorem requestReview_no_key_no_call_witness :
    requestReviewStart exState none =
      .noCall { exState with reviewError := some apiKeyMissingMsg } :=
  requestReview_no_key_no_call exState 1 exCT exS1 rfl rfl rfl rfl

/-- Counterexample to claim C4 as stated.  The claim says that for an id
absent from the Document Store, `deleteTranslation` fails with a NotFound
error rather than silently succeeding.  On the empty store (where id 5 is
absent) the operation silently succeeds: it resolves `true` and leaves the
store unchanged — its result type has no failure channel for a missing id
at all, because IndexedDB's `delete` succeeds on absent keys and the code
adds no existence check. -/
theorem deleteTranslation_absent_cex :
    getTranslation { records := [], nextId := 1 } 5 = none ∧
    deleteTranslation { records := [], nextId := 1 } 5 =
      (true, { records := [], nextId := 1 }) :=
  ⟨rfl, rfl⟩

/-- Amended claim C4: for every id absent from the Document Store,
`deleteTranslation` silently succeeds — it resolves `true` with the record
set unchanged; no NotFound error is signalled. -/
theorem deleteTranslation_absent_succeeds (db : DB) (id : Nat)
    (h : getTranslation db id = none) :
    deleteTranslation db id = (true, db) := by
  have hall := List.find?_eq_none.mp h
  have hfilter : db.records.filter (fun t => t.id != id) = db.records :=
    List.filter_eq_self.mpr (fun t ht => by
      have := hall t ht
      simp only [bne_iff_ne, ne_eq, decide_not]
      simpa using this)
  simp [deleteTranslation, hfilter]

/-- Witness for the amended C4 at a concrete input. -/
theorem deleteTranslation_absent_succeeds_witness :
    deleteTranslation { records := [], nextId := 1 } 3 =
      (true, { records := [], nextId := 1 }) :=
  deleteTranslation_absent_succeeds { records := [], nextId := 1 } 3 rfl

/-- Claim C8: the sentence segmenter splits on `.`, `!` or `?` followed by
whitespace, trims each piece, discards empty pieces, and preserves order;
in particular it maps the specified input to exactly the three expected
sentences.  The second conjunct verifies the discard-empty-pieces clause
for every input. -/
theorem splitIntoSentences_spec :
    splitIntoSentences "Hello world. How are you? I am fine!" =
      ["Hello world.", "How are you?", "I am fine!"] ∧
    ∀ text : String, ∀ s ∈ splitIntoSentences text, s ≠ "" := by
  refine ⟨by decide, ?_⟩
  intro text s hs
  unfold splitIntoSentences at hs
  have hlen := List.of_mem_filter hs
  intro e
  subst e
  simp at hlen

/-- Witness for C8: the first returned piece of the specified input is
non-empty. -/
theorem splitIntoSentences_spec_witness : "Hello world." ≠ "" :=
  splitIntoSentences_spec.2 "Hello world. How are you? I am fine!"
    "Hello world." (by decide)

/-- Claim C5: for every stored Translation and every update whose partial
fields do not include `sentences`, the record returned by the storage
`updateTranslation` has the `sentences` array unchanged from the existing
record (merge, not replace) and the same id; and the operation fails with
NotFound when the id is absent. -/
theorem updateTranslation_frame (db : DB) (id : Nat) (u : TranslationUpdate)
    (now : String) (t : Translation) (db' : DB) (hs : u.sentences? = none) :
    (updateTranslation db id u now = .ok (t, db') →
      ∃ ex, getTranslation db id = some ex ∧
        t.sentences = ex.sentences ∧ t.id = id) ∧
    (getTranslation db id = none →
      updateTranslation db id u now =
        .error ("Translation not found: " ++ toString id)) := by
  constructor
  · intro h
    cases hex : getTranslation db id with
    | none => rw [updateTranslation, hex] at h; cases h
    | some ex =>
        rw [updateTranslation, hex] at h
        simp only [savePut, Except.ok.injEq, Prod.mk.injEq] at h
        refine ⟨ex, rfl, ?_, ?_⟩
        · rw [← h.1]
          simp [applyUpdate, hs]
        · rw [← h.1]
  · intro h
    rw [updateTranslation, h]

/-- Witness for C5 at a concrete input: a title-only update of the stored
example translation keeps its `sentences` and id. -/
theorem updateTranslation_frame_witness :
    ∃ ex, getTranslation exDB 7 = some ex ∧
      exMerged.sentences = ex.sentences ∧ exMerged.id = 7 :=
  (updateTranslation_frame exDB 7 exU "t1" exMerged exDBMerged rfl).1 rfl

/-- Counterexample to claim C2 as stated.  The claim says that after
`updateSentence(s.id, field, value)` completes, the sentence's `aiReview`
is absent unconditionally, regardless of which field was written.  But the
cache-clearing `delete` runs only when the field is `'english'` or
`'dutch'` (part_003, line 178): writing the unrelated field `'note'` on
sentence 1 — which carries a cached review — completes successfully (it
persists the updated sentence list) and leaves `aiReview` present. -/
theorem updateSentence_any_field_cex :
    updateSentence exState2 1 "note" "hi" "t1" = .ok exState2' ∧
    exState2'.currentTranslation = some exCT2' ∧
    exCT2'.sentences.find? (fun s => s.id == 1) = some exS1R' ∧
    exS1R'.aiReview = some exReview :=
  ⟨rfl, rfl, rfl, rfl⟩

/-- Amended claim C2: for every sentence s in
`currentTranslation.sentences` and every value, after
`updateSentence(s.id, field, value)` completes with `field` equal to
`'english'` or `'dutch'`, s's `aiReview` is absent — even when the value
equals the field's current value. -/
theorem updateSentence_clears_cache (st : StoreState) (ct ex : Translation)
    (sid : Nat) (field value now : String)
    (h : st.currentTranslation = some ct)
    (hf : field = "english" ∨ field = "dutch")
    (hdb : getTranslation st.db ct.id = some ex)
    (hnodup : (ct.sentences.map Sentence.id).Nodup)
    (hmem : ∃ s ∈ ct.sentences, s.id = sid) :
    ∃ st' ct', updateSentence st sid field value now = .ok st' ∧
      st'.currentTranslation = some ct' ∧
      ∀ s' ∈ ct'.sentences, s'.id = sid → s'.aiReview = none := by
  rcases setFirstSentence_isSome sid (fun s => applySentenceUpdate s field value)
    ct.sentences hmem with ⟨l', hl'⟩
  rcases updateCurrentTranslation_ok st ct ex (sentencesUpdate l') now h hdb with
    ⟨st', hok, hcur, _⟩
  refine ⟨st', mergedRecord ex (sentencesUpdate l') ct.id now, ?_, hcur, ?_⟩
  · simp [updateSentence, h, hl', hok]
  · intro s' hs' hid
    have hs'' : s' ∈ l' := hs'
    rcases setFirstSentence_mem_target sid _ ct.sentences l' hl' hnodup s' hs'' hid
      with ⟨s, _, _, rfl⟩
    rcases hf with rfl | rfl
    · show (applySentenceUpdate s "english" value).aiReview = none
      unfold applySentenceUpdate
      rw [if_pos (Or.inl rfl)]
    · show (applySentenceUpdate s "dutch" value).aiReview = none
      unfold applySentenceUpdate
      rw [if_pos (Or.inr rfl)]

/-- Witness for the amended C2 at a concrete input: rewriting sentence 1's
`dutch` field on the cached-review state clears the cache. -/
theorem updateSentence_clears_cache_witness :
    ∃ st' ct', updateSentence exState2 1 "dutch" "Ik wandel." "t1" = .ok st' ∧
      st'.currentTranslation = some ct' ∧
      ∀ s' ∈ ct'.sentences, s'.id = 1 → s'.aiReview = none :=
  updateSentence_clears_cache exState2 exCT2 exCT2 1 "dutch" "Ik wandel." "t1"
    rfl (Or.inr rfl) rfl (by decide) ⟨exS1R, by decide, rfl⟩

/-- Claim C7: for every current translation and every afterId,
`addSentence(afterId)` — which assigns the new sentence the id
(max existing id in the current sentence list, or 0) + 1 — followed by
`deleteSentence` of that newly assigned id restores the sentence sequence
to its exact pre-add state (round-trip).  The freshly assigned id is
strictly greater than every existing id, so the delete filter removes
exactly the added blank row, whichever insertion position it took. -/
theorem addSentence_deleteSentence_roundtrip (st : StoreState)
    (ct ex : Translation) (afterId : Option Nat) (now now' : String)
    (h : st.currentTranslation = some ct)
    (hdb : getTranslation st.db ct.id = some ex) :
    ∃ st₁ removed st₂ ct₂,
      addSentence st afterId now = .ok st₁ ∧
      deleteSentence st₁ (maxSentenceId ct.sentences + 1) now' = .ok (removed, st₂) ∧
      st₂.currentTranslation = some ct₂ ∧
      ct₂.sentences = ct.sentences := by
  have hfresh : ∀ s ∈ ct.sentences, s.id ≠ maxSentenceId ct.sentences + 1 :=
    maxSentenceId_fresh ct.sentences
  obtain ⟨l₁, haddeq, hfilter⟩ :
      ∃ l₁, addSentence st afterId now =
          updateCurrentTranslation st (sentencesUpdate l₁) now ∧
        l₁.filter (fun s => s.id != maxSentenceId ct.sentences + 1) = ct.sentences := by
    cases afterId with
    | none =>
        exact ⟨ct.sentences ++
          [{ id := maxSentenceId ct.sentences + 1, english := "", dutch := "" }],
          by simp [addSentence, h],
          filter_ne_append_singleton (maxSentenceId ct.sentences + 1)
            { id := maxSentenceId ct.sentences + 1, english := "", dutch := "" }
            rfl ct.sentences hfresh⟩
    | some aid =>
        cases hidx : ct.sentences.findIdx? (fun s => s.id == aid) with
        | none =>
            exact ⟨ct.sentences ++
              [{ id := maxSentenceId ct.sentences + 1, english := "", dutch := "" }],
              by simp [addSentence, h, hidx],
              filter_ne_append_singleton (maxSentenceId ct.sentences + 1)
                { id := maxSentenceId ct.sentences + 1, english := "", dutch := "" }
                rfl ct.sentences hfresh⟩
        | some index =>
            exact ⟨ct.sentences.insertIdx (index + 1)
              { id := maxSentenceId ct.sentences + 1, english := "", dutch := "" },
              by simp [addSentence, h, hidx],
              filter_ne_insertIdx (maxSentenceId ct.sentences + 1)
                { id := maxSentenceId ct.sentences + 1, english := "", dutch := "" }
                rfl ct.sentences (index + 1) hfresh⟩
  rcases updateCurrentTranslation_ok st ct ex (sentencesUpdate l₁) now h hdb with
    ⟨st₁, hok1, hcur1, hdb1⟩
  have hdbget : getTranslation st₁.db
      (mergedRecord ex (sentencesUpdate l₁) ct.id now).id =
      some (mergedRecord ex (sentencesUpdate l₁) ct.id now) := by
    rw [hdb1]
    exact getTranslation_dbPut_self st.db _
  rcases updateCurrentTranslation_ok st₁ (mergedRecord ex (sentencesUpdate l₁) ct.id now)
      (mergedRecord ex (sentencesUpdate l₁) ct.id now)
      (sentencesUpdate (l₁.filter (fun s => s.id != maxSentenceId ct.sentences + 1)))
      now' hcur1 hdbget with ⟨st₂, hok2, hcur2, _⟩
  have hdel : deleteSentence st₁ (maxSentenceId ct.sentences + 1) now' =
      .ok (l₁.find? (fun s => s.id == maxSentenceId ct.sentences + 1), st₂) := by
    simp only [deleteSentence, hcur1]
    rw [show (mergedRecord ex (sentencesUpdate l₁) ct.id now).sentences = l₁ from rfl,
      hok2]
    rfl
  exact ⟨st₁, _, st₂, _, haddeq.trans hok1, hdel, hcur2, hfilter⟩

/-- Witness for C7 at a concrete input: adding a row after sentence 1 of
the example translation and deleting the new row (id 3) restores the
original two-sentence sequence. -/
theorem addSentence_deleteSentence_roundtrip_witness :
    ∃ st₁ removed st₂ ct₂,
      addSentence exState (some 1) "t1" = .ok st₁ ∧
      deleteSentence st₁ (maxSentenceId exCT.sentences + 1) "t2" =
        .ok (removed, st₂) ∧
      st₂.currentTranslation = some ct₂ ∧
      ct₂.sentences = exCT.sentences :=
  addSentence_deleteSentence_roundtrip exState exCT exCT (some 1) "t1" "t2" rfl rfl

/-- Inversion for the synchronous prefix of `requestReview`: whenever it
reaches the network call, the state so far is the input state with the
loading flag raised and the error cleared (in particular
`currentTranslation`, `reviewSentenceId` and the database are untouched by
the prefix). -/
theorem requestReviewStart_call_state (st : StoreState) (apiKey : Option String)
    (st₁ : StoreState) (e d : String) (bf af : List String)
    (h : requestReviewStart st apiKey = .call st₁ e d bf af) :
    st₁ = { st with isReviewLoading := true, reviewError := none } := by
  rcases hrid : st.reviewSentenceId with _ | rid <;>
    rcases hct : st.currentTranslation with _ | ct <;>
    simp only [requestReviewStart, hrid, hct] at h <;>
    try exact absurd h (by simp)
  rcases hf : ct.sentences.find? (fun s => s.id == rid) with _ | sentence <;>
    simp only [hf] at h <;>
    try exact absurd h (by simp)
  split_ifs at h with h1 h2
  simp only [ReviewStep.call.injEq] at h
  exact h.1.symm

/-- Counterexample to claim C1 as stated.  The claim says that when a
review is requested for sentence A (id 1) and the open review is switched
to sentence B (id 2) before the response resolves, the response content is
written into A's `aiReview` (id captured at request time) and B's is
unchanged.  In the code, the completion handler re-reads the live
`reviewSentenceId` (part_003, line 381): running the scenario on the
example state, the arriving review lands on sentence 2 (B) and sentence 1
(A) stays uncached — the opposite of the claim, whose predicted outcome is
refuted in the last conjunct. -/
theorem requestReview_stale_target_cex :
    requestReviewStart exState (some "key") =
      .call exCallState "I walk." "Ik loop." [] ["I run."] ∧
    ((requestReviewFinish (openReview exCallState 2) (.success "Goed zo!") "t1"
        ).currentTranslation.map (fun ct =>
          ct.sentences.map (fun s => (s.id, s.aiReview)))) =
      some [(1, none), (2, some ⟨"Goed zo!", "t1"⟩)] ∧
    ¬ ((requestReviewFinish (openReview exCallState 2) (.success "Goed zo!") "t1"
        ).currentTranslation.map (fun ct =>
          ct.sentences.map (fun s => (s.id, s.aiReview)))) =
      some [(1, some ⟨"Goed zo!", "t1"⟩), (2, none)] :=
  ⟨rfl, rfl, by decide⟩

/-- Amended claim C1: for every AI review request, if `requestReview()` is
invoked while sentence A is the open review target and, before the
response resolves, the open review is switched to sentence B, then when
the response resolves successfully its `{content, generatedAt}` is written
into the sentence whose id is the open review id **at completion time** —
sentence B — while every sentence with a different id (in particular A)
is carried over unchanged: the completion handler re-reads the live
target id instead of using one captured at request time. -/
theorem requestReview_completion_target (st₀ : StoreState) (apiKey : Option String)
    (b : Nat) (ct ex : Translation) (st₁ : StoreState) (e d : String)
    (bf af : List String) (c now : String)
    (h0 : st₀.currentTranslation = some ct)
    (hstart : requestReviewStart st₀ apiKey = .call st₁ e d bf af)
    (hdb : getTranslation st₀.db ct.id = some ex)
    (hnodup : (ct.sentences.map Sentence.id).Nodup)
    (hmem : ∃ sb ∈ ct.sentences, sb.id = b) :
    ∃ ct', (requestReviewFinish (openReview st₁ b) (.success c) now).currentTranslation
        = some ct' ∧
      (∀ s' ∈ ct'.sentences, s'.id = b → s'.aiReview = some ⟨c, now⟩) ∧
      (∀ s ∈ ct.sentences, s.id ≠ b → s ∈ ct'.sentences) := by
  have hst₁ := requestReviewStart_call_state st₀ apiKey st₁ e d bf af hstart
  subst hst₁
  rcases setFirstSentence_isSome b (fun s => { s with aiReview := some ⟨c, now⟩ })
    ct.sentences hmem with ⟨l', hl'⟩
  rcases updateCurrentTranslation_ok
      (openReview { st₀ with isReviewLoading := true, reviewError := none } b)
      ct ex (sentencesUpdate l') now (by simpa [openReview] using h0)
      (by simpa [openReview] using hdb) with ⟨st', hok, hcur, _⟩
  refine ⟨mergedRecord ex (sentencesUpdate l') ct.id now, ?_, ?_, ?_⟩
  · simp only [openReview, h0] at hok
    simp only [requestReviewFinish, openReview, h0, hl', hok]
    exact hcur
  · intro s' hs' hid
    have hs'' : s' ∈ l' := hs'
    rcases setFirstSentence_mem_target b _ ct.sentences l' hl' hnodup s' hs'' hid
      with ⟨s, _, _, rfl⟩
    rfl
  · intro s hs hne
    exact setFirstSentence_mem_preserved b _ ct.sentences l' hl' s hs hne

/-- Witness for the amended C1 at a concrete input: request for sentence 1
of the example state, switch to sentence 2, response arrives — sentence 2
receives the review, sentence 1 is carried over unchanged. -/
theorem requestReview_completion_target_witness :
    ∃ ct', (requestReviewFinish (openReview exCallState 2) (.success "Goed zo!")
        "t1").currentTranslation = some ct' ∧
      (∀ s' ∈ ct'.sentences, s'.id = 2 → s'.aiReview = some ⟨"Goed zo!", "t1"⟩) ∧
      (∀ s ∈ exCT.sentences, s.id ≠ 2 → s ∈ ct'.sentences) :=
  requestReview_completion_target exState (some "key") 2 exCT exCT exCallState
    "I walk." "Ik loop." [] ["I run."] "Goed zo!" "t1" rfl rfl rfl (by decide)
    ⟨exS2, by decide, rfl⟩

/-- Counterexample to claim C3 as stated.  The claim says the title is the
first ≈5 whitespace-delimited words of the **first sentence** (or of
sourceText only when the sentence list is empty).  The app's caller passes
the sentence list as plain strings, and a plain string has no `english`
property, so `sentences[0]?.english || englishText` (part_003, line 106)
falls back to the whole source text even though the list is non-empty:
with source "Alpha beta. Gamma." and first sentence "Alpha beta.", the
produced title is "Alpha beta. Gamma.", not the first-sentence-derived
"Alpha beta." the claim predicts (third conjunct). -/
theorem createTranslation_title_cex :
    ((createTranslation exEmptyState "Alpha beta. Gamma."
        [.str "Alpha beta.", .str "Gamma."] "t0").currentTranslation.map
      Translation.title) = some "Alpha beta. Gamma." ∧
    "Alpha beta. Gamma." ≠ deriveTitle "Alpha beta." ∧
    deriveTitle "Alpha beta." = "Alpha beta." :=
  ⟨rfl, by decide, by decide⟩

/-- Amended claim C3: for every (sourceText, sentenceList),
`createTranslation` returns a record that immediately after the call is
`currentTranslation` and the first element of `allTranslations`, whose
sentences carry ids 1..n in input order with the input texts, and whose
title is the first ≈5 whitespace-delimited words — ellipsis appended if
and only if the joined words are shorter than the full string — of the
first entry's `english` text when that entry is an object with non-empty
`english`, and of sourceText otherwise (in particular whenever the entries
are plain strings, as the app's caller passes, or the list is empty). -/
theorem createTranslation_spec (st : StoreState) (src : String)
    (inputs : List SentenceInput) (now : String) :
    ∃ t, (createTranslation st src inputs now).currentTranslation = some t ∧
      (createTranslation st src inputs now).translations.head? = some t ∧
      t.sentences.map Sentence.id = List.range' 1 inputs.length ∧
      t.sentences.map Sentence.english = inputs.map inputEnglish ∧
      t.title = deriveTitle (titleSource src inputs) := by
  refine ⟨_, rfl, rfl, ?_, ?_, rfl⟩
  · show ((inputs.mapIdx fun index s =>
        ({ id := index + 1, english := inputEnglish s, dutch := inputDutch s }
          : Sentence)).map Sentence.id) = List.range' 1 inputs.length
    rw [List.mapIdx_eq_enum_map, List.map_map, List.range'_eq_map_range]
    have h1 : (Sentence.id ∘ Function.uncurry fun index s =>
        ({ id := index + 1, english := inputEnglish s, dutch := inputDutch s }
          : Sentence)) = (fun x => x + 1) ∘ Prod.fst := rfl
    rw [h1, ← List.map_map, List.enum_map_fst]
    exact List.map_congr_left (fun x _ => Nat.add_comm x 1)
  · show ((inputs.mapIdx fun index s =>
        ({ id := index + 1, english := inputEnglish s, dutch := inputDutch s }
          : Sentence)).map Sentence.english) = inputs.map inputEnglish
    rw [List.mapIdx_eq_enum_map, List.map_map]
    have h2 : (Sentence.english ∘ Function.uncurry fun index s =>
        ({ id := index + 1, english := inputEnglish s, dutch := inputDutch s }
          : Sentence)) = inputEnglish ∘ Prod.snd := rfl
    rw [h2, ← List.map_map, List.enum_map_snd]

theorem not_mem_replaceChar_self (c : Char) (r : List Char) (hc : c ∉ r) :
    ∀ l : List Char, c ∉ replaceChar l c r := by
  intro l
  induction l with
  | nil => simp [replaceChar]
  | cons x xs ih =>
      simp only [replaceChar, List.mem_append]
      rintro (h | h)
      · by_cases hx : x = c
        · rw [if_pos hx] at h; exact hc h
        · rw [if_neg hx] at h
          rcases List.mem_singleton.mp h with rfl
          exact hx rfl
      · exact ih h

theorem not_mem_replaceChar_of (c x : Char) (r : List Char) (hx : x ∉ r) :
    ∀ l : List Char, x ∉ l → x ∉ replaceChar l c r := by
  intro l
  induction l with
  | nil => intro _; simp [replaceChar]
  | cons y ys ih =>
      intro hl
      simp only [replaceChar, List.mem_append]
      rintro (h | h)
      · by_cases hy : y = c
        · rw [if_pos hy] at h; exact hx h
        · rw [if_neg hy] at h
          rcases List.mem_singleton.mp h with rfl
          exact hl (List.mem_cons_self x ys)
      · exact ih (fun hm => hl (List.mem_cons_of_mem y hm)) h

/-- Claim C9: the Markdown renderer HTML-escapes the input before applying
any tag substitution (the escape stage runs first in `renderMarkdown`, and
after it no raw `<` or `>` character remains, whatever the input — so no
angle bracket originating from the input survives unescaped into the tag
passes, and every `&` has been folded into an entity); in particular the
specified input renders to HTML containing `<strong>bold</strong>`,
`<em>italic</em>` and `<code>code</code>`, and a text with raw `&`, `<`,
`>` renders with all three escaped. -/
theorem renderMarkdown_escape_spec :
    (∀ t : String, '<' ∉ escapeHtml t.data ∧ '>' ∉ escapeHtml t.data) ∧
    renderMarkdown "**bold** and *italic* and `code`" =
      "<p><strong>bold</strong> and <em>italic</em> and <code>code</code></p>" ∧
    renderMarkdown "a & b < c > d" = "<p>a &amp; b &lt; c &gt; d</p>" := by
  refine ⟨?_, by decide, by decide⟩
  intro t
  constructor
  · exact not_mem_replaceChar_of '>' '<' _ (by decide) _
      (not_mem_replaceChar_self '<' _ (by decide) _)
  · exact not_mem_replaceChar_self '>' _ (by decide) _

/-- Witness for C9 at a concrete input: no raw angle bracket survives the
escape stage of "a<b". -/
theorem renderMarkdown_escape_spec_witness :
    '<' ∉ escapeHtml "a<b".data ∧ '>' ∉ escapeHtml "a<b".data :=
  renderMarkdown_escape_spec.1 "a<b"

end DutchGW
